import Mathlib

/-!
Verification development for the pixano-elements panoptic segmentation mask
editor (packages/graphics-2d).  The repository sources at hand are
`controller-mask.ts` (mask interaction controllers) and the concatenated
`pxn-graph.ts` file, whose last section contains the `Segmentation` element
(`pxn-segmentation`).  The `GraphicMask` engine itself (`graphic-mask.ts`,
`utils-mask.ts`) is not among the sources, so its operations are modelled
from the specification and marked as such in their doc comments.  All code
present in the sources (filterId, setMode, setEmpty, fillSelectionWithClass,
getPolygons, the lock toggle, the paint commit handlers) is embedded
faithfully.
-/

namespace PixanoMask

/-- Identity of a pixel: `(instanceLow, instanceHigh, classId)` as stored in
the first three channels of a pixel.  Components are modelled as `Int`
(JavaScript numbers); the sentinel `[-1,-1,-1]` used by `Segmentation` is
representable. -/
structure Id3 where
  l : Int
  h : Int
  c : Int
deriving DecidableEq

/-- The background identity `(0,0,0)` ("no label"). -/
def bg : Id3 := ⟨0, 0, 0⟩

/-- Modelled from the spec: `fuseId` of `utils-mask.ts` (missing from src).
Packs an identity into a single integer key
`classId*65536 + instanceHigh*256 + instanceLow`. -/
def fuseId (x : Id3) : Int := x.l + 256 * x.h + 65536 * x.c

/-- Modelled from the spec: `unfuseId` of `utils-mask.ts` (missing from src).
Decodes a fused key back into its three components (valid for the
non-negative keys produced by `fuseId`). -/
def unfuseId (k : Int) : Id3 := ⟨k % 256, (k / 256) % 256, (k / 65536) % 256⟩

/-- One pixel of the raster: an identity plus the reserved/alpha byte. -/
structure Pix where
  pid : Id3
  a : Int
deriving DecidableEq

/-- JavaScript `Set.add`: append if absent (sets are modelled as
duplicate-free lists in insertion order). -/
def setAdd (s : List Int) (x : Int) : List Int :=
  if x ∈ s then s else s ++ [x]

/-- JavaScript `Set.delete`: remove the element. -/
def setDel (s : List Int) (x : Int) : List Int :=
  s.filter (fun y => y ≠ x)

/-- Modelled from the spec: the Mask Buffer owned by `GraphicMask`
(`graphic-mask.ts` is missing from src): raster dimensions, row-major pixel
store, the known-id set `fusedIds`, the locked-id set `lockedInstances` and
the class table `clsMap : classId -> (r, g, b, isInstance)`. -/
structure GraphicMask where
  width : Nat
  height : Nat
  pixels : List Pix
  fusedIds : List Int
  lockedInstances : List Int
  clsMap : List (Int × (Int × Int × Int × Int))
deriving DecidableEq

/-- Bounds-tolerant pixel read (out of range reads the background pixel). -/
def pixAt (m : GraphicMask) (i : Nat) : Pix :=
  (m.pixels.get? i).getD ⟨bg, 0⟩

/-- Fill mode of the Raster Painter. -/
inductive FillType where
  | add
  | remove
deriving DecidableEq

/-- Modelled from the spec: the per-pixel write rule of the Raster Painter
(spec 4.4).  A pixel whose current identity is locked is never changed; an
`add` writes the target identity; a `remove` clears the pixel to background
only when its current identity equals the target identity. -/
def writePix (locked : List Int) (target : Id3) (ft : FillType) (p : Pix) : Pix :=
  if fuseId p.pid ∈ locked then p
  else
    match ft with
    | .add => { p with pid := target }
    | .remove => if p.pid = target then { p with pid := bg } else p

/-- Index-passing map over the pixel store. -/
def mapIdx (f : Nat → Pix → Pix) : Nat → List Pix → List Pix
  | _, [] => []
  | i, p :: ps => f i p :: mapIdx f (i + 1) ps

/-- Modelled from the spec: the common core of `updateByPolygon` and
`updateByMaskInRoi` (spec 4.4): apply the write rule to every pixel index
satisfying `inside`, and add the target's fused id to the known-id set
whenever at least one pixel was written. -/
def updateByRegion (m : GraphicMask) (inside : Nat → Bool) (target : Id3)
    (ft : FillType) : GraphicMask :=
  let newPixels :=
    mapIdx (fun i p => if inside i then writePix m.lockedInstances target ft p else p)
      0 m.pixels
  { m with
    pixels := newPixels
    fusedIds :=
      if newPixels ≠ m.pixels then setAdd m.fusedIds (fuseId target)
      else m.fusedIds }

/-- One edge of the even-odd crossing test: whether the segment from
`(ax, ay)` to `(bx, bz)` crosses the leftward horizontal ray from
`(px, py)` (all coordinates pre-doubled so that `py` is odd and vertex
coordinates are even, avoiding boundary ties). -/
def edgeCrossB (px py ax ay bx bz : Int) : Bool :=
  if (decide (ay < py)) = (decide (bz < py)) then false
  else if bz - ay > 0 then decide ((py - ay) * (bx - ax) < (px - ax) * (bz - ay))
  else decide ((px - ax) * (bz - ay) < (py - ay) * (bx - ax))

/-- Consecutive (closing) edges of a polygon vertex list. -/
def edgesOf : List (Int × Int) → List ((Int × Int) × (Int × Int))
  | [] => []
  | v :: rest => (v :: rest).zip (rest ++ [v])

/-- Modelled from the spec: even-odd scanline membership of the pixel
`(x, y)` (tested at its centre) in the polygon (spec 4.4). -/
def evenOddInside (vs : List (Int × Int)) (x y : Int) : Bool :=
  let px := 2 * x + 1
  let py := 2 * y + 1
  decide ((((edgesOf vs).filter
      (fun e => edgeCrossB px py (2 * e.1.1) (2 * e.1.2) (2 * e.2.1) (2 * e.2.2))).length) % 2 = 1)

/-- Modelled from the spec: `GraphicMask.updateByPolygon` (missing from
src): rasterize the polygon with the even-odd rule and apply the write rule;
degenerate polygons of fewer than three vertices are a no-op (spec 4.4). -/
def updateByPolygon (m : GraphicMask) (vertices : List (Int × Int)) (target : Id3)
    (ft : FillType) : GraphicMask :=
  if vertices.length < 3 then m
  else
    updateByRegion m
      (fun i => evenOddInside vertices ((i % m.width : Nat) : Int) ((i / m.width : Nat) : Int))
      target ft

/-- Modelled from the spec: coverage of pixel index `i` by the brush stamp
bit matrix laid over the box `[x0, y0, x1, y1]` (spec 4.4). -/
def stampCovers (stamp : List Int) (box : Int × Int × Int × Int) (w : Nat) (i : Nat) : Bool :=
  let x : Int := ((i % w : Nat) : Int)
  let y : Int := ((i / w : Nat) : Int)
  let x0 := box.1
  let y0 := box.2.1
  let x1 := box.2.2.1
  let y1 := box.2.2.2
  decide (x0 ≤ x) && decide (x < x1) && decide (y0 ≤ y) && decide (y < y1) &&
    decide (stamp.getD ((x - x0) + (x1 - x0) * (y - y0)).toNat 0 ≠ 0)

/-- Modelled from the spec: `GraphicMask.updateByMaskInRoi` (missing from
src): apply the write rule to every pixel covered by a set cell of the stamp
inside the box (spec 4.4). -/
def updateByMaskInRoi (m : GraphicMask) (stamp : List Int) (box : Int × Int × Int × Int)
    (target : Id3) (ft : FillType) : GraphicMask :=
  updateByRegion m (fun i => stampCovers stamp box m.width i) target ft

/-- The 4-connected neighbours of pixel index `i` in a `w`-by-`h` grid. -/
def neighbors4 (w h : Nat) (i : Nat) : List Nat :=
  let x := i % w
  let y := i / w
  (if x + 1 < w then [i + 1] else []) ++ (if 0 < x then [i - 1] else []) ++
    (if y + 1 < h then [i + w] else []) ++ (if 0 < y then [i - w] else [])

/-- Fueled breadth-first growth of a connected component from a frontier. -/
def growComp (good : Nat → Bool) (w h : Nat) : Nat → List Nat → List Nat → List Nat
  | 0, comp, _ => comp
  | fuel + 1, comp, frontier =>
    let fresh :=
      (((frontier.map (neighbors4 w h)).flatten).filter
        (fun j => good j && !(comp.contains j))).dedup
    if fresh.isEmpty then comp
    else growComp good w h fuel (comp ++ fresh) fresh

/-- Scan all indices, starting a component at each good unseen index. -/
def componentsAux (good : Nat → Bool) (w h : Nat) : List Nat → List Nat → List (List Nat)
  | [], _ => []
  | i :: rest, seen =>
    if good i && !(seen.contains i) then
      let comp := growComp good w h (w * h) [i] [i]
      comp :: componentsAux good w h rest (seen ++ comp)
    else componentsAux good w h rest seen

/-- Modelled from the spec: 4-connected component labeling over the grid
(spec 4.3 step 1). -/
def components (good : Nat → Bool) (w h : Nat) : List (List Nat) :=
  componentsAux good w h (List.range (w * h)) []

/-- Kind of a traced contour. -/
inductive CKind where
  | external
  | hole
deriving DecidableEq

/-- Modelled from the spec: one closed boundary of a blob (spec 4.3).  The
source stores `points` on the corner lattice of stride `width + 1`; the
model represents a contour by the pixel region its even-odd polygon fill
covers, which is what every use in the sources (repainting through
`updateByPolygon`) consumes. -/
structure Contour where
  ctype : CKind
  region : List Nat
deriving DecidableEq

/-- Modelled from the spec: a maximal connected pixel region of one
identity together with its traced contours (spec data model, `Blob`). -/
structure Blob where
  nbPixels : Nat
  contours : List Contour
deriving DecidableEq

/-- Whether pixel index `i` lies on the border of the grid. -/
def onBorder (w h : Nat) (i : Nat) : Bool :=
  let x := i % w
  let y := i / w
  decide (x = 0) || decide (x + 1 = w) || decide (y = 0) || decide (y + 1 = h)

/-- Whether pixel index `i` lies inside the (inclusive) extrema box. -/
def inExtrema (w : Nat) (box : Int × Int × Int × Int) (i : Nat) : Bool :=
  let x : Int := ((i % w : Nat) : Int)
  let y : Int := ((i / w : Nat) : Int)
  decide (box.1 ≤ x) && decide (x ≤ box.2.2.1) && decide (box.2.1 ≤ y) &&
    decide (y ≤ box.2.2.2)

/-- Modelled from the spec: the holes of a component `S` are the connected
complement components that do not touch the grid border (spec 4.3 step 3:
hole contours attached to their enclosing outer contour). -/
def holesOf (w h : Nat) (inRegion : Nat → Bool) (s : List Nat) : List (List Nat) :=
  (components (fun i => inRegion i && !(s.contains i)) w h).filter
    (fun comp => comp.all (fun i => !(onBorder w h i)))

/-- Modelled from the spec: contour list of one component: hole contours
first, then the external contour whose fill covers the component together
with its holes (spec 4.6: holes are filled back before the containing
removal). -/
def contoursOf (w h : Nat) (inRegion : Nat → Bool) (s : List Nat) : List Contour :=
  let holes := holesOf w h inRegion s
  holes.map (fun hc => ⟨CKind.hole, hc⟩) ++ [⟨CKind.external, s ++ holes.flatten⟩]

/-- Modelled from the spec: `GraphicMask.getBlobs` (missing from src): all
blobs whose pixels equal the target identity, restricted to the optional
extrema box (spec 4.3). -/
def getBlobs (m : GraphicMask) (target : Id3) (extrema : Option (Int × Int × Int × Int)) :
    List Blob :=
  let inRegion : Nat → Bool := fun i =>
    match extrema with
    | none => decide (i < m.width * m.height)
    | some box => decide (i < m.width * m.height) && inExtrema m.width box i
  let good : Nat → Bool := fun i => inRegion i && decide ((pixAt m i).pid = target)
  (components good m.width m.height).map
    (fun s => ⟨s.length, contoursOf m.width m.height inRegion s⟩)

/-- Repaint the contours of one blob: `external` contours with `remove`,
other contours with `add` (the inner loop of `Segmentation.filterId` in
`pxn-graph.ts`). -/
def applyBlobContours (targetId : Id3) (blob : Blob) (m : GraphicMask) : GraphicMask :=
  blob.contours.foldl
    (fun a contour =>
      match contour.ctype with
      | .external => updateByRegion a (fun i => contour.region.contains i) targetId .remove
      | .hole => updateByRegion a (fun i => contour.region.contains i) targetId .add)
    m

/-- `Segmentation.filterId` from `pxn-graph.ts`: remove all blobs of the
target id whose pixel count is below `blobMinSize` by repainting their
contours. -/
def filterId (m : GraphicMask) (targetId : Id3) (blobMinSize : Nat) : GraphicMask :=
  (getBlobs m targetId none).foldl
    (fun acc blob =>
      if blob.nbPixels < blobMinSize then applyBlobContours targetId blob acc
      else acc)
    m

/-- `Segmentation.filterLittle` from `pxn-graph.ts`: run `filterId` for
every known fused id. -/
def filterLittle (m : GraphicMask) (numPixels : Nat) : GraphicMask :=
  m.fusedIds.foldl (fun acc k => filterId acc (unfuseId k) numPixels) m

/-- Modelled from the spec: `convertIndexToDict` of `utils-mask.ts`
(missing from src): turn flat lattice indices into coordinate pairs for the
given stride.  The source calls it with stride `width + 1` on corner-lattice
points; the model's contours carry pixel-region indices of stride `width`. -/
def convertIndexToDict (points : List Nat) (stride : Nat) : List (Int × Int) :=
  points.map (fun i => (((i % stride : Nat) : Int), ((i / stride : Nat) : Int)))

/-- A contour polygon in coordinate form (`DensePolygon` of
`utils-mask.ts`). -/
structure DensePolygon where
  dtype : CKind
  data : List (Int × Int)
deriving DecidableEq

/-- `getPolygons` from `controller-mask.ts`: all blob contours of the mask
for the target id; a query for the background identity returns the empty
list. -/
def getPolygons (m : GraphicMask) (targetId : Id3)
    (extrema : Option (Int × Int × Int × Int)) : List DensePolygon :=
  if targetId = bg then []
  else
    (getBlobs m targetId extrema).foldl
      (fun acc blob =>
        acc ++ blob.contours.map
          (fun contour => ⟨contour.ctype, convertIndexToDict contour.region m.width⟩))
      []

/-- The four raster bytes of one pixel, channel layout
`[idLow, idHigh, classId, reserved]` (spec 6). -/
def pixBytes (p : Pix) : List Int := [p.pid.l, p.pid.h, p.pid.c, p.a]

/-- Parse a flat byte buffer into pixel records, four bytes per pixel. -/
def chunk4 : List Int → List Pix
  | a :: b :: c :: d :: rest => ⟨⟨a, b, c⟩, d⟩ :: chunk4 rest
  | _ => []

/-- Modelled from the spec: `exportEncoded` / `GraphicMask.getBase64`
(missing from src): serialize the raster verbatim (spec 4.2: lossless
round-trip of the raw raster). -/
def exportEncoded (m : GraphicMask) : List Int := (m.pixels.map pixBytes).flatten

/-- Modelled from the spec: `importEncoded` / `GraphicMask.setBase64`
(missing from src): replace the pixel store with the raw bytes verbatim;
fails when the byte length is not `width*height*4` (spec 4.2). -/
def importEncoded (bytes : List Int) (w h : Nat) : Option GraphicMask :=
  if bytes.length = w * h * 4 then some ⟨w, h, chunk4 bytes, [], [], []⟩ else none

/-- Smallest value starting from `n` that is not in `used` (fueled scan). -/
def firstFreeInst (used : List Int) : Nat → Int → Int
  | 0, n => n
  | fuel + 1, n => if used.contains n then firstFreeInst used fuel (n + 1) else n

/-- Modelled from the spec: `GraphicMask.getNextId` (missing from src): the
Id Allocator returns the smallest 16-bit instance number not used by any
known or locked fused id (spec 4.2), split into `(low, high)` bytes. -/
def getNextId (m : GraphicMask) : Int × Int :=
  let used := (m.fusedIds ++ m.lockedInstances).map (fun k => k % 65536)
  let n := firstFreeInst used 65536 0
  (n % 256, n / 256)

/-- `EditionMode` from `controller-mask.ts`. -/
inductive EditionMode where
  | newInstance
  | addToInstance
  | removeFromInstance
deriving DecidableEq

/-- `getTargetValue` from `controller-mask.ts` (shared by
`CreateBrushController` and `CreatePolygonController`): the identity to
paint next, depending on the edition mode; in `NEW_INSTANCE` mode a fresh
instance id is allocated only when the class-table entry is instantiable,
and the selection is updated to the produced value.  Returns the value and
the new selection. -/
def getTargetValue (mode : EditionMode) (m : GraphicMask) (targetClass : Int)
    (selected : Option Id3) : Id3 × Option Id3 :=
  match mode with
  | .newInstance =>
    let newId :=
      match m.clsMap.lookup targetClass with
      | some cls => if cls.2.2.2 ≠ 0 then getNextId m else ((0 : Int), (0 : Int))
      | none => ((0 : Int), (0 : Int))
    let v : Id3 := ⟨newId.1, newId.2, targetClass⟩
    (v, some v)
  | _ =>
    match selected with
    | some s => (s, some s)
    | none => (bg, none)

/-- State of `CreatePolygonController` relevant to the Enter commit. -/
structure PolyState where
  gmask : GraphicMask
  editionMode : EditionMode
  selectedId : Option Id3
  targetClass : Int
deriving DecidableEq

/-- The Enter branch of `CreatePolygonController.onKeyDown` from
`controller-mask.ts`: when the finished polygon has more than two vertices,
the target's fused id is added to `fusedIds` and the polygon is painted with
`remove` fill in `REMOVE_FROM_INSTANCE` mode and `add` fill otherwise. -/
def onKeyEnterPolygon (s : PolyState) (vertices : List (Int × Int)) : PolyState :=
  if vertices.length > 2 then
    let ft : FillType :=
      match s.editionMode with
      | .removeFromInstance => .remove
      | _ => .add
    let tv := getTargetValue s.editionMode s.gmask s.targetClass s.selectedId
    let g1 := { s.gmask with fusedIds := setAdd s.gmask.fusedIds (fuseId tv.1) }
    { s with gmask := updateByPolygon g1 vertices tv.1 ft, selectedId := tv.2 }
  else s

/-- State of `CreateBrushController` relevant to the pointer-up commit. -/
structure BrushState where
  gmask : GraphicMask
  isActive : Bool
  selectedId : Option Id3
deriving DecidableEq

/-- `CreateBrushController.onPointerUpBrush` from `controller-mask.ts`:
when a stroke is active, the selected identity's fused id is added to
`fusedIds`; `none` models the runtime error of the non-null assertion on a
null selection. -/
def onPointerUpBrush (s : BrushState) : Option BrushState :=
  if s.isActive then
    match s.selectedId with
    | some v =>
      some { s with
        gmask := { s.gmask with fusedIds := setAdd s.gmask.fusedIds (fuseId v) }
        isActive := false }
    | none => none
  else some s

/-- The lock-all branch of `LockController.onPointerDownLock` from
`controller-mask.ts`: add every known fused id whose decoded class matches
`cls` to the locked set. -/
def lockAllOfClass (m : GraphicMask) (cls : Int) : GraphicMask :=
  { m with
    lockedInstances :=
      m.fusedIds.foldl
        (fun acc f => if (unfuseId f).c = cls then setAdd acc f else acc)
        m.lockedInstances }

/-- The unlock-all branch of `LockController.onPointerDownLock` from
`controller-mask.ts`: delete every known fused id whose decoded class
matches `cls` from the locked set. -/
def unlockAllOfClass (m : GraphicMask) (cls : Int) : GraphicMask :=
  { m with
    lockedInstances :=
      m.fusedIds.foldl
        (fun acc f => if (unfuseId f).c = cls then setDel acc f else acc)
        m.lockedInstances }

/-- The class branch of `LockController.onPointerDownLock` from
`controller-mask.ts`: toggle the lock of all known instances of the class
of the clicked identity. -/
def lockClickClass (m : GraphicMask) (clicked : Id3) : GraphicMask :=
  let cls := clicked.c
  if m.lockedInstances.any (fun f => (unfuseId f).c = cls) then unlockAllOfClass m cls
  else lockAllOfClass m cls

/-- Mode-switching state of the `Segmentation` element: the current mode,
the controller registry with an active flag per controller, and the list of
dispatched events. -/
structure SegModes where
  mode : String
  modes : List (String × Bool)
  events : List String
deriving DecidableEq

/-- Set the activation flag of the named controller, if present. -/
def setFlag (ms : List (String × Bool)) (k : String) (v : Bool) : List (String × Bool) :=
  ms.map (fun e => if e.1 = k then (e.1, v) else e)

/-- `Segmentation.setMode` from `pxn-graph.ts`: no-op when the previous and
new modes coincide; otherwise deactivate the previous mode's controller,
activate the new one, set the mode field and dispatch a `mode` event. -/
def setMode (s : SegModes) (prevMode newMode : String) : SegModes :=
  if prevMode = newMode then s
  else
    { mode := newMode
      modes := setFlag (setFlag s.modes prevMode false) newMode true
      events := s.events ++ ["mode"] }

/-- Mask-editing state of the `Segmentation` element: the renderer's image
dimensions, the graphic mask and the selected identity. -/
structure SegmentationState where
  imageWidth : Nat
  imageHeight : Nat
  gmask : GraphicMask
  selectedId : Option Id3
deriving DecidableEq

/-- Modelled from the spec: `GraphicMask.empty` (missing from src):
zero-filled raster of the given size, known and locked id sets cleared
(spec 4.2). -/
def emptyMask (m : GraphicMask) (w h : Nat) : GraphicMask :=
  { m with
    width := w
    height := h
    pixels := List.replicate (w * h) ⟨bg, 0⟩
    fusedIds := []
    lockedInstances := [] }

/-- `Segmentation.setEmpty` from `pxn-graph.ts`: no-op when the image width
or height is 0; otherwise empty the mask to the image dimensions and set the
selected identity to the sentinel `[-1,-1,-1]`. -/
def setEmpty (s : SegmentationState) : SegmentationState :=
  if s.imageWidth = 0 ∨ s.imageHeight = 0 then s
  else
    { s with
      gmask := emptyMask s.gmask s.imageWidth s.imageHeight
      selectedId := some ⟨-1, -1, -1⟩ }

/-- Modelled from the spec: `GraphicMask.replaceValue` (missing from src):
bulk recolor of every pixel matching the old identity to the new identity
(spec 6). -/
def replaceValue (m : GraphicMask) (oldId newId : Id3) : GraphicMask :=
  { m with
    pixels := m.pixels.map (fun p => if p.pid = oldId then { p with pid := newId } else p) }

/-- `Segmentation.fillSelection` from `pxn-graph.ts`: replace every pixel of
the selected identity with the new identity and select the new identity. -/
def fillSelection (s : SegmentationState) (newId : Id3) : SegmentationState :=
  match s.selectedId with
  | none => s
  | some v => { s with gmask := replaceValue s.gmask v newId, selectedId := some newId }

/-- `Segmentation.fillSelectionWithClass` from `pxn-graph.ts`: reassign the
selected region to a new class; a fresh instance id is allocated when moving
from a semantic class to an instantiable one, and the instance bits are
forced to 0 when the new class is not instantiable.  `none` models the
runtime error of the non-null class-table assertions; the `&&`
short-circuit of the source is preserved. -/
def fillSelectionWithClass (s : SegmentationState) (newClass : Int) :
    Option SegmentationState :=
  match s.selectedId with
  | none => some s
  | some v =>
    match s.gmask.clsMap.lookup newClass with
    | none => none
    | some eNew =>
      if eNew.2.2.2 ≠ 0 then
        match s.gmask.clsMap.lookup v.c with
        | none => none
        | some eCur =>
          if eCur.2.2.2 = 0 then
            some (fillSelection s ⟨(getNextId s.gmask).1, (getNextId s.gmask).2, newClass⟩)
          else some (fillSelection s ⟨v.l, v.h, newClass⟩)
      else some (fillSelection s ⟨0, 0, newClass⟩)

/-- A sample identity (instance 1 of class 5). -/
def idA : Id3 := ⟨1, 0, 5⟩

/-- A second sample identity (instance 2 of class 7). -/
def idB : Id3 := ⟨2, 0, 7⟩

/-- Membership test of the 3-pixel blob of the C1 scenario: the cells
`(0,0)`, `(0,1)`, `(0,2)` of a 12-by-5 grid. -/
def inSmallC1 (i : Nat) : Bool := decide (i = 0) || decide (i = 12) || decide (i = 24)

/-- Membership test of the 50-pixel blob of the C1 scenario: the cells with
`x >= 2` of a 12-by-5 grid (a 10-by-5 rectangle). -/
def inBigC1 (i : Nat) : Bool := decide (2 ≤ i % 12)

/-- A 12-by-5 buffer containing exactly two disjoint blobs of identity
`idA`: one of 3 pixels and one of 50 pixels, separated by an empty
column. -/
def maskC1 : GraphicMask :=
  ⟨12, 5,
    (List.range 60).map (fun i => if inSmallC1 i || inBigC1 i then ⟨idA, 0⟩ else ⟨bg, 0⟩),
    [fuseId idA], [], []⟩

/-- The ring cells of the C4 donut: the 3-by-3 square at `(1,1)`..`(3,3)` of
a 5-by-5 grid, minus its centre `(2,2)` (index 12). -/
def ringC4 (i : Nat) : Bool := [6, 7, 8, 11, 13, 16, 17, 18].contains i

/-- A 5-by-5 buffer with an 8-pixel donut blob of identity `idA` whose
single-pixel hole holds the different identity `idB`. -/
def maskC4 : GraphicMask :=
  ⟨5, 5,
    (List.range 25).map
      (fun i => if ringC4 i then ⟨idA, 0⟩ else if i = 12 then ⟨idB, 0⟩ else ⟨bg, 0⟩),
    [fuseId idA, fuseId idB], [], []⟩

/-- An all-background 2-by-2 mask with empty id sets. -/
def gmask0 : GraphicMask := ⟨2, 2, List.replicate 4 ⟨bg, 0⟩, [], [], []⟩

/-- The 2-by-2 background mask with `idA` already known. -/
def gmaskK : GraphicMask := ⟨2, 2, List.replicate 4 ⟨bg, 0⟩, [fuseId idA], [], []⟩

/-- Polygon-controller state about to commit a `remove` paint of `idA` on an
all-background mask. -/
def polyS0 : PolyState := ⟨gmask0, .removeFromInstance, some idA, 5⟩

/-- Polygon-controller state in `add` mode over `gmaskK`. -/
def polyK : PolyState := ⟨gmaskK, .addToInstance, some idA, 5⟩

/-- A triangle with three vertices. -/
def c3verts : List (Int × Int) := [(0, 0), (2, 0), (2, 2)]

/-- Brush-controller state with an active stroke and selection `idA`. -/
def brushS0 : BrushState := ⟨gmask0, true, some idA⟩

/-- The state `onPointerUpBrush` produces from `brushS0`. -/
def brushS1 : BrushState := ⟨gmaskK, false, some idA⟩

/-- A 2-by-1 mask whose first pixel holds the locked identity `idA`. -/
def mC2 : GraphicMask := ⟨2, 1, [⟨idA, 0⟩, ⟨bg, 0⟩], [fuseId idA], [fuseId idA], []⟩

/-- A raw byte buffer of a 2-by-1 raster. -/
def bytesC5 : List Int := [1, 2, 3, 4, 5, 6, 7, 8]

/-- A class table where class 7 is not instantiable and class 5 is. -/
def clsC6 : List (Int × (Int × Int × Int × Int)) := [(7, (10, 20, 30, 0)), (5, (1, 2, 3, 1))]

/-- A 2-by-1 mask with one `idA` pixel, one `idB` pixel and table `clsC6`. -/
def gmaskC6 : GraphicMask := ⟨2, 1, [⟨idA, 0⟩, ⟨idB, 0⟩], [], [], clsC6⟩

/-- Segmentation state with `idA` selected over `gmaskC6`. -/
def segC6 : SegmentationState := ⟨2, 1, gmaskC6, some idA⟩

/-- The state `fillSelectionWithClass segC6 7` produces. -/
def segC6app : SegmentationState := fillSelection segC6 ⟨0, 0, 7⟩

/-- Segmentation state whose renderer image width is 0. -/
def segW0 : SegmentationState := ⟨0, 3, gmask0, some idA⟩

/-- Segmentation state with non-degenerate image dimensions. -/
def segNZ : SegmentationState := ⟨2, 2, gmaskK, some idA⟩

theorem setAdd_mem_self (s : List Int) (x : Int) : x ∈ setAdd s x := by
  unfold setAdd
  split
  · assumption
  · simp

theorem mem_setAdd_of_mem {s : List Int} {k : Int} (x : Int) (h : k ∈ s) :
    k ∈ setAdd s x := by
  unfold setAdd
  split
  · assumption
  · simp [h]

theorem mem_setAdd {s : List Int} {x k : Int} : k ∈ setAdd s x ↔ k ∈ s ∨ k = x := by
  unfold setAdd
  split
  · rename_i hmem
    constructor
    · exact Or.inl
    · rintro (h | rfl)
      · exact h
      · exact hmem
  · simp

theorem mem_setDel {s : List Int} {x k : Int} : k ∈ setDel s x ↔ k ∈ s ∧ k ≠ x := by
  simp [setDel]

theorem setAdd_of_mem {s : List Int} {x : Int} (h : x ∈ s) : setAdd s x = s := by
  simp [setAdd, h]

theorem setDel_of_not_mem {s : List Int} {x : Int} (h : x ∉ s) : setDel s x = s := by
  rw [setDel, List.filter_eq_self]
  intro y hy
  simp only [decide_eq_true_eq]
  intro hyx
  exact h (hyx ▸ hy)

theorem mapIdx_getElem? (f : Nat → Pix → Pix) :
    ∀ (l : List Pix) (s j : Nat), (mapIdx f s l)[j]? = (l[j]?).map (fun p => f (s + j) p) := by
  intro l
  induction l with
  | nil => intro s j; simp [mapIdx]
  | cons p ps ih =>
    intro s j
    cases j with
    | zero => simp [mapIdx]
    | succ j =>
      simp only [mapIdx, List.getElem?_cons_succ, ih (s + 1) j]
      have : s + 1 + j = s + (j + 1) := by omega
      rw [this]

theorem mapIdx_length (f : Nat → Pix → Pix) :
    ∀ (l : List Pix) (s : Nat), (mapIdx f s l).length = l.length := by
  intro l
  induction l with
  | nil => intro s; rfl
  | cons p ps ih => intro s; simp [mapIdx, ih]

theorem updateByRegion_pixels_getElem? (m : GraphicMask) (inside : Nat → Bool)
    (target : Id3) (ft : FillType) (i : Nat) :
    (updateByRegion m inside target ft).pixels[i]?
      = (m.pixels[i]?).map
          (fun p => if inside i then writePix m.lockedInstances target ft p else p) := by
  show (mapIdx _ 0 m.pixels)[i]? = _
  rw [mapIdx_getElem?]
  simp

theorem updateByRegion_pixels_length (m : GraphicMask) (inside : Nat → Bool)
    (target : Id3) (ft : FillType) :
    (updateByRegion m inside target ft).pixels.length = m.pixels.length := by
  show (mapIdx _ 0 m.pixels).length = _
  rw [mapIdx_length]

theorem updateByRegion_lockedInstances (m : GraphicMask) (inside : Nat → Bool)
    (target : Id3) (ft : FillType) :
    (updateByRegion m inside target ft).lockedInstances = m.lockedInstances := rfl

theorem writePix_locked {locked : List Int} {target : Id3} {ft : FillType} {p : Pix}
    (h : fuseId p.pid ∈ locked) : writePix locked target ft p = p := by
  simp [writePix, h]

theorem pixAt_eq_getElem? (m : GraphicMask) (i : Nat) :
    pixAt m i = (m.pixels[i]?).getD ⟨bg, 0⟩ := by
  simp [pixAt, List.get?_eq_getElem?]

theorem pixAt_updateByRegion_locked {m : GraphicMask} {i : Nat}
    (inside : Nat → Bool) (target : Id3) (ft : FillType)
    (h : fuseId (pixAt m i).pid ∈ m.lockedInstances) :
    pixAt (updateByRegion m inside target ft) i = pixAt m i := by
  rw [pixAt_eq_getElem?, pixAt_eq_getElem?, updateByRegion_pixels_getElem?]
  cases hp : m.pixels[i]? with
  | none => rfl
  | some p =>
    have hpix : pixAt m i = p := by rw [pixAt_eq_getElem?, hp]; rfl
    rw [hpix] at h
    simp [writePix_locked h]

theorem pixAt_updateByRegion_of_lt {m : GraphicMask} {i : Nat}
    (inside : Nat → Bool) (target : Id3) (ft : FillType) (h : i < m.pixels.length) :
    pixAt (updateByRegion m inside target ft) i
      = if inside i then writePix m.lockedInstances target ft (pixAt m i) else pixAt m i := by
  rw [pixAt_eq_getElem?, pixAt_eq_getElem?, updateByRegion_pixels_getElem?,
    List.getElem?_eq_getElem h]
  split <;> rfl

theorem mem_fusedIds_updateByRegion {m : GraphicMask} {k : Int}
    (inside : Nat → Bool) (target : Id3) (ft : FillType) (h : k ∈ m.fusedIds) :
    k ∈ (updateByRegion m inside target ft).fusedIds := by
  show k ∈ (if _ then setAdd m.fusedIds (fuseId target) else m.fusedIds)
  split
  · exact mem_setAdd_of_mem _ h
  · exact h

/-- C1: for a buffer containing exactly two disjoint blobs of identity
`idA`, one of 3 pixels and one of 50 pixels, `filterId idA 10` (the small
blob filter) leaves the buffer containing only the 50-pixel blob of identity
`idA`. -/
theorem C1_filter_small_blobs :
    (getBlobs maskC1 idA none).map (fun b => b.nbPixels) = [3, 50] ∧
    (filterId maskC1 idA 10).pixels
      = (List.range 60).map (fun i => if inBigC1 i then (⟨idA, 0⟩ : Pix) else ⟨bg, 0⟩) ∧
    (getBlobs (filterId maskC1 idA 10) idA none).map (fun b => b.nbPixels) = [50] := by
  decide

/-- C7: a contour-extraction query for the background identity `(0,0,0)`
returns the empty polygon list, for every mask state and every optional
extrema box. -/
theorem C7_background_query_is_empty :
    ∀ (m : GraphicMask) (extrema : Option (Int × Int × Int × Int)),
      getPolygons m bg extrema = [] := by
  intro m extrema
  simp [getPolygons]

/-- C9: calling `setMode` with the previous mode equal to the new mode is a
complete no-op: no controller flag changes, the mode field is unchanged and
no `mode` event is dispatched. -/
theorem C9_setMode_same_mode_noop :
    ∀ (s : SegModes) (m : String), setMode s m m = s := by
  intro s m
  simp [setMode]

/-- C10: `setEmpty` is a no-op when the renderer's image width or height is
0; otherwise it empties the mask to the image dimensions and sets the
selected identity to the sentinel `[-1,-1,-1]`, a value outside the byte
range of any valid pixel identity. -/
theorem C10_setEmpty_spec :
    ∀ (s : SegmentationState),
      (s.imageWidth = 0 ∨ s.imageHeight = 0 → setEmpty s = s) ∧
      (s.imageWidth ≠ 0 → s.imageHeight ≠ 0 →
        (setEmpty s).gmask.width = s.imageWidth ∧
        (setEmpty s).gmask.height = s.imageHeight ∧
        (setEmpty s).gmask.pixels
          = List.replicate (s.imageWidth * s.imageHeight) ⟨bg, 0⟩ ∧
        (setEmpty s).gmask.fusedIds = [] ∧
        (setEmpty s).gmask.lockedInstances = [] ∧
        (setEmpty s).selectedId = some ⟨-1, -1, -1⟩ ∧
        ∀ x : Id3, 0 ≤ x.l → x.l < 256 → 0 ≤ x.h → x.h < 256 → 0 ≤ x.c → x.c < 256 →
          x ≠ ⟨-1, -1, -1⟩) := by
  intro s
  constructor
  · intro h
    simp [setEmpty, h]
  · intro hw hh
    have hcond : ¬(s.imageWidth = 0 ∨ s.imageHeight = 0) := by
      rintro (h | h)
      · exact hw h
      · exact hh h
    refine ⟨?_, ?_, ?_, ?_, ?_, ?_, ?_⟩
    case refine_7 =>
      intro x h0 h1 h2 h3 h4 h5 heq
      subst heq
      simp at h0
    all_goals simp [setEmpty, hcond, emptyMask]

/-- Witness for C10 at concrete states: the width-0 state is unchanged and a
2-by-2 state is emptied with the sentinel selection. -/
theorem C10_setEmpty_witness :
    setEmpty segW0 = segW0 ∧
    (setEmpty segNZ).gmask.pixels = List.replicate 4 ⟨bg, 0⟩ ∧
    (setEmpty segNZ).selectedId = some ⟨-1, -1, -1⟩ := by
  refine ⟨(C10_setEmpty_spec segW0).1 (Or.inl rfl), ?_, ?_⟩
  · exact ((C10_setEmpty_spec segNZ).2 (by decide) (by decide)).2.2.1
  · exact ((C10_setEmpty_spec segNZ).2 (by decide) (by decide)).2.2.2.2.2.1

/-- C2: for every identity whose fused key is in the locked set, no paint
operation (`updateByPolygon` or `updateByMaskInRoi`), with any target
identity and either fill mode, changes a pixel currently holding that
identity. -/
theorem C2_locked_pixels_unchanged :
    ∀ (m : GraphicMask) (target : Id3) (ft : FillType) (i : Nat),
      fuseId (pixAt m i).pid ∈ m.lockedInstances →
      (∀ vertices, pixAt (updateByPolygon m vertices target ft) i = pixAt m i) ∧
      (∀ stamp box, pixAt (updateByMaskInRoi m stamp box target ft) i = pixAt m i) := by
  intro m target ft i h
  constructor
  · intro vertices
    unfold updateByPolygon
    split
    · rfl
    · exact pixAt_updateByRegion_locked _ target ft h
  · intro stamp box
    exact pixAt_updateByRegion_locked _ target ft h

/-- Witness for C2: with `idA` locked, painting over its pixel with another
identity (polygon and stamp, `add` fill) leaves the pixel unchanged. -/
theorem C2_locked_pixels_unchanged_witness :
    fuseId (pixAt mC2 0).pid ∈ mC2.lockedInstances ∧
    pixAt (updateByPolygon mC2 c3verts idB .add) 0 = pixAt mC2 0 ∧
    pixAt (updateByMaskInRoi mC2 [1] (0, 0, 1, 1) idB .add) 0 = pixAt mC2 0 :=
  ⟨by decide,
    (C2_locked_pixels_unchanged mC2 idB .add 0 (by decide)).1 c3verts,
    (C2_locked_pixels_unchanged mC2 idB .add 0 (by decide)).2 [1] (0, 0, 1, 1)⟩

/-- C3 counterexample: committing a polygon `remove` paint over an
all-background mask writes no pixel, yet the target's fused id is added to
`fusedIds` — the id is not added "only when at least one pixel was
written". -/
theorem C3_counterexample_add_without_write :
    fuseId idA ∉ polyS0.gmask.fusedIds ∧
    (onKeyEnterPolygon polyS0 c3verts).gmask.pixels = polyS0.gmask.pixels ∧
    fuseId idA ∈ (onKeyEnterPolygon polyS0 c3verts).gmask.fusedIds := by
  decide

/-- C3 amended: every committed paint adds the target identity's fused id to
`fusedIds` unconditionally (even when no pixel was written), and no paint —
in particular no `remove` paint — ever removes an id from `fusedIds`. -/
theorem C3_amended_fusedIds :
    (∀ (s : PolyState) (vertices : List (Int × Int)), vertices.length > 2 →
        fuseId (getTargetValue s.editionMode s.gmask s.targetClass s.selectedId).1
          ∈ (onKeyEnterPolygon s vertices).gmask.fusedIds) ∧
    (∀ (s t : BrushState) (v : Id3), s.selectedId = some v → s.isActive = true →
        onPointerUpBrush s = some t → fuseId v ∈ t.gmask.fusedIds) ∧
    (∀ (m : GraphicMask) (inside : Nat → Bool) (target : Id3) (ft : FillType) (k : Int),
        k ∈ m.fusedIds → k ∈ (updateByRegion m inside target ft).fusedIds) ∧
    (∀ (s : PolyState) (vertices : List (Int × Int)) (k : Int),
        k ∈ s.gmask.fusedIds → k ∈ (onKeyEnterPolygon s vertices).gmask.fusedIds) := by
  have hupd : ∀ (m : GraphicMask) (vertices : List (Int × Int)) (target : Id3)
      (ft : FillType) (k : Int), k ∈ m.fusedIds →
      k ∈ (updateByPolygon m vertices target ft).fusedIds := by
    intro m vertices target ft k hk
    unfold updateByPolygon
    split
    · exact hk
    · exact mem_fusedIds_updateByRegion _ _ _ hk
  have hpoly : ∀ (s : PolyState) (vertices : List (Int × Int)) (k : Int),
      k ∈ s.gmask.fusedIds → k ∈ (onKeyEnterPolygon s vertices).gmask.fusedIds := by
    intro s vertices k hk
    unfold onKeyEnterPolygon
    split
    · exact hupd _ _ _ _ _ (mem_setAdd_of_mem _ hk)
    · exact hk
  refine ⟨?_, ?_, ?_, hpoly⟩
  · intro s vertices hlen
    unfold onKeyEnterPolygon
    rw [if_pos hlen]
    exact hupd _ _ _ _ _ (setAdd_mem_self _ _)
  · intro s t v hsel hact hup
    unfold onPointerUpBrush at hup
    rw [if_pos hact, hsel] at hup
    have ht := Option.some.inj hup
    rw [← ht]
    exact setAdd_mem_self _ _
  · intro m inside target ft k hk
    exact mem_fusedIds_updateByRegion _ _ _ hk

/-- Witness for C3 amended at concrete states: the polygon commit and the
brush release add the fused id, and known ids survive a `remove` paint and a
further commit. -/
theorem C3_amended_fusedIds_witness :
    fuseId (getTargetValue polyS0.editionMode polyS0.gmask polyS0.targetClass
        polyS0.selectedId).1 ∈ (onKeyEnterPolygon polyS0 c3verts).gmask.fusedIds ∧
    fuseId idA ∈ brushS1.gmask.fusedIds ∧
    fuseId idA ∈ (updateByRegion gmaskK (fun _ => true) idB .remove).fusedIds ∧
    fuseId idA ∈ (onKeyEnterPolygon polyK c3verts).gmask.fusedIds :=
  ⟨C3_amended_fusedIds.1 polyS0 c3verts (by decide),
    C3_amended_fusedIds.2.1 brushS0 brushS1 idA (by decide) (by decide) (by decide),
    C3_amended_fusedIds.2.2.1 gmaskK (fun _ => true) idB .remove (fuseId idA) (by decide),
    C3_amended_fusedIds.2.2.2 polyK c3verts (fuseId idA) (by decide)⟩

/-- C4 counterexample: in the donut mask the hole pixel holds the different
identity `idB`; the blob of `idA` is below the threshold and has one hole
contour and one external contour, and after `filterId` the hole pixel has
been erased to background — the differently-identified enclosed material is
not preserved. -/
theorem C4_counterexample_hole_material_erased :
    (pixAt maskC4 12).pid = idB ∧ idB ≠ idA ∧ idB ≠ bg ∧
    (getBlobs maskC4 idA none).map
        (fun b => (b.nbPixels, b.contours.map Contour.ctype))
      = [(8, [CKind.hole, CKind.external])] ∧
    (pixAt (filterId maskC4 idA 20) 12).pid = bg := by
  decide

/-- C4 amended: when the small-blob filter removes a blob, each hole contour
is repainted with `add` and each external contour with `remove`, both for
the blob's identity and with the hole fills preceding the containing
removal; in consequence an unlocked pixel lying in a hole — whatever
identity it held — is first overwritten with the blob's identity and then
cleared to background, so differently-identified enclosed material is
erased rather than preserved (the donut mask ends all-background). -/
theorem C4_amended_hole_add_then_remove :
    (∀ (m : GraphicMask) (t : Id3) (holeR extR : Nat → Bool) (i : Nat),
        i < m.pixels.length → holeR i = true → extR i = true →
        fuseId t ∉ m.lockedInstances →
        fuseId (pixAt m i).pid ∉ m.lockedInstances →
        (pixAt (updateByRegion (updateByRegion m holeR t .add) extR t .remove) i).pid
          = bg) ∧
    (filterId maskC4 idA 20).pixels = List.replicate 25 (⟨bg, 0⟩ : Pix) := by
  constructor
  · intro m t holeR extR i hlen hhole hext htlock hplock
    have hlen1 : i < (updateByRegion m holeR t .add).pixels.length := by
      rw [updateByRegion_pixels_length]
      exact hlen
    rw [pixAt_updateByRegion_of_lt extR t .remove hlen1, if_pos hext,
      updateByRegion_lockedInstances]
    rw [pixAt_updateByRegion_of_lt holeR t .add hlen, if_pos hhole]
    rw [writePix, if_neg hplock]
    show (writePix m.lockedInstances t .remove { pixAt m i with pid := t }).pid = bg
    rw [writePix, if_neg htlock]
    simp
  · decide

/-- Witness for C4 amended: the hole pixel of the donut, first re-added then
removed, ends as background. -/
theorem C4_amended_hole_add_then_remove_witness :
    (pixAt (updateByRegion (updateByRegion maskC4 (fun j => j == 12) idA .add)
        (fun j => j == 12) idA .remove) 12).pid = bg :=
  C4_amended_hole_add_then_remove.1 maskC4 idA (fun j => j == 12) (fun j => j == 12) 12
    (by decide) (by decide) (by decide) (by decide) (by decide)

theorem chunk4_flatten (n : Nat) :
    ∀ (bytes : List Int), bytes.length ≤ n → bytes.length % 4 = 0 →
      ((chunk4 bytes).map pixBytes).flatten = bytes := by
  induction n with
  | zero =>
    intro bytes h1 _
    have : bytes = [] := List.eq_nil_of_length_eq_zero (Nat.le_zero.mp h1)
    subst this
    rfl
  | succ n ih =>
    intro bytes h1 h2
    match bytes with
    | [] => rfl
    | [a] => simp at h2
    | [a, b] => simp at h2
    | [a, b, c] => simp at h2
    | a :: b :: c :: d :: rest =>
      have hr1 : rest.length ≤ n := by
        simp only [List.length_cons] at h1
        omega
      have hr2 : rest.length % 4 = 0 := by
        simp only [List.length_cons] at h2
        omega
      simp only [chunk4, List.map_cons, List.flatten_cons, pixBytes]
      rw [ih rest hr1 hr2]
      rfl

/-- C5: for every raster byte buffer of the correct size `w*h*4`, importing
it and then exporting yields a buffer byte-identical to the input: the
raster round trip is lossless. -/
theorem C5_import_export_round_trip :
    ∀ (bytes : List Int) (w h : Nat), bytes.length = w * h * 4 →
      (importEncoded bytes w h).map exportEncoded = some bytes := by
  intro bytes w h hlen
  rw [importEncoded, if_pos hlen, Option.map_some']
  refine congrArg some ?_
  show ((chunk4 bytes).map pixBytes).flatten = bytes
  exact chunk4_flatten bytes.length bytes (Nat.le_refl _) (by omega)

/-- Witness for C5: a concrete 2-by-1 buffer round-trips byte-identically. -/
theorem C5_import_export_round_trip_witness :
    (importEncoded bytesC5 2 1).map exportEncoded = some bytesC5 :=
  C5_import_export_round_trip bytesC5 2 1 (by decide)

theorem replaceValue_pid (m : GraphicMask) (oldId newId : Id3) (i : Nat) :
    (pixAt (replaceValue m oldId newId) i).pid = (pixAt m i).pid ∨
      (pixAt (replaceValue m oldId newId) i).pid = newId := by
  rw [pixAt_eq_getElem?, pixAt_eq_getElem?]
  have hpx : (replaceValue m oldId newId).pixels
      = m.pixels.map (fun p => if p.pid = oldId then { p with pid := newId } else p) := rfl
  rw [hpx, List.getElem?_map]
  cases m.pixels[i]? with
  | none => exact Or.inl rfl
  | some p =>
    by_cases hp : p.pid = oldId
    · right
      simp [hp]
    · left
      simp [hp]

/-- C6: for a class whose table entry is not instantiable, new-instance
target values use instance `(0,0)`, and reassigning a selected region to
such a class forces the instance bits of the new identity — and of every
rewritten pixel — to 0. -/
theorem C6_non_instantiable_instance_zero :
    (∀ (m : GraphicMask) (tc : Int) (sel : Option Id3),
        (∀ e, m.clsMap.lookup tc = some e → e.2.2.2 = 0) →
        (getTargetValue .newInstance m tc sel).1 = ⟨0, 0, tc⟩ ∧
        (getTargetValue .newInstance m tc sel).2 = some ⟨0, 0, tc⟩) ∧
    (∀ (s t : SegmentationState) (newClass : Int) (v : Id3) (e : Int × Int × Int × Int),
        s.selectedId = some v →
        s.gmask.clsMap.lookup newClass = some e → e.2.2.2 = 0 →
        fillSelectionWithClass s newClass = some t →
        t.selectedId = some ⟨0, 0, newClass⟩ ∧
        ∀ i, (pixAt t.gmask i).pid = (pixAt s.gmask i).pid ∨
          (pixAt t.gmask i).pid = ⟨0, 0, newClass⟩) := by
  constructor
  · intro m tc sel hni
    cases hl : m.clsMap.lookup tc with
    | none => simp [getTargetValue, hl]
    | some e =>
      have he := hni e hl
      simp [getTargetValue, hl, he]
  · intro s t newClass v e hsel hl he happ
    simp only [fillSelectionWithClass, hsel, hl] at happ
    rw [if_neg (by simp [he])] at happ
    have ht := Option.some.inj happ
    subst ht
    constructor
    · rw [fillSelection, hsel]
    · intro i
      rw [fillSelection, hsel]
      exact replaceValue_pid s.gmask v ⟨0, 0, newClass⟩ i

/-- Witness for C6: reassigning the selected `idA` region to the
non-instantiable class 7 selects `(0,0,7)` and rewrites pixels to it. -/
theorem C6_non_instantiable_instance_zero_witness :
    (getTargetValue .newInstance gmaskC6 7 none).1 = ⟨0, 0, 7⟩ ∧
    segC6app.selectedId = some ⟨0, 0, 7⟩ ∧
    ∀ i, (pixAt segC6app.gmask i).pid = (pixAt segC6.gmask i).pid ∨
      (pixAt segC6app.gmask i).pid = ⟨0, 0, 7⟩ :=
  ⟨(C6_non_instantiable_instance_zero.1 gmaskC6 7 none (by decide)).1,
    (C6_non_instantiable_instance_zero.2 segC6 segC6app 7 idA (10, 20, 30, 0)
      (by decide) (by decide) (by decide) (by decide)).1,
    (C6_non_instantiable_instance_zero.2 segC6 segC6app 7 idA (10, 20, 30, 0)
      (by decide) (by decide) (by decide) (by decide)).2⟩

theorem mem_foldl_setAdd (P : Int → Prop) [DecidablePred P] :
    ∀ (L acc : List Int) (k : Int),
      k ∈ L.foldl (fun a x => if P x then setAdd a x else a) acc ↔
        k ∈ acc ∨ (k ∈ L ∧ P k) := by
  intro L
  induction L with
  | nil => simp
  | cons x L ih =>
    intro acc k
    rw [List.foldl_cons, ih]
    by_cases hx : P x
    · rw [if_pos hx, mem_setAdd]
      constructor
      · rintro ((h | rfl) | ⟨hL, hP⟩)
        · exact Or.inl h
        · exact Or.inr ⟨List.mem_cons_self _ _, hx⟩
        · exact Or.inr ⟨List.mem_cons_of_mem _ hL, hP⟩
      · rintro (h | ⟨hmem, hP⟩)
        · exact Or.inl (Or.inl h)
        · rcases List.mem_cons.mp hmem with rfl | hL
          · exact Or.inl (Or.inr rfl)
          · exact Or.inr ⟨hL, hP⟩
    · rw [if_neg hx]
      constructor
      · rintro (h | ⟨hL, hP⟩)
        · exact Or.inl h
        · exact Or.inr ⟨List.mem_cons_of_mem _ hL, hP⟩
      · rintro (h | ⟨hmem, hP⟩)
        · exact Or.inl h
        · rcases List.mem_cons.mp hmem with rfl | hL
          · exact absurd hP hx
          · exact Or.inr ⟨hL, hP⟩

theorem mem_foldl_setDel (P : Int → Prop) [DecidablePred P] :
    ∀ (L acc : List Int) (k : Int),
      k ∈ L.foldl (fun a x => if P x then setDel a x else a) acc ↔
        k ∈ acc ∧ ¬(k ∈ L ∧ P k) := by
  intro L
  induction L with
  | nil => simp
  | cons x L ih =>
    intro acc k
    rw [List.foldl_cons, ih]
    by_cases hx : P x
    · rw [if_pos hx]
      rw [show (k ∈ setDel acc x) = (k ∈ acc ∧ k ≠ x) from propext mem_setDel]
      constructor
      · rintro ⟨⟨hacc, hne⟩, hnot⟩
        refine ⟨hacc, ?_⟩
        rintro ⟨hmem, hP⟩
        rcases List.mem_cons.mp hmem with rfl | hL
        · exact hne rfl
        · exact hnot ⟨hL, hP⟩
      · rintro ⟨hacc, hnot⟩
        have hne : k ≠ x := by
          rintro rfl
          exact hnot ⟨List.mem_cons_self _ _, hx⟩
        refine ⟨⟨hacc, hne⟩, ?_⟩
        rintro ⟨hL, hP⟩
        exact hnot ⟨List.mem_cons_of_mem _ hL, hP⟩
    · rw [if_neg hx]
      constructor
      · rintro ⟨hacc, hnot⟩
        refine ⟨hacc, ?_⟩
        rintro ⟨hmem, hP⟩
        rcases List.mem_cons.mp hmem with rfl | hL
        · exact hx hP
        · exact hnot ⟨hL, hP⟩
      · rintro ⟨hacc, hnot⟩
        refine ⟨hacc, ?_⟩
        rintro ⟨hL, hP⟩
        exact hnot ⟨List.mem_cons_of_mem _ hL, hP⟩

theorem foldl_setAdd_absorb (P : Int → Prop) [DecidablePred P] :
    ∀ (L acc : List Int), (∀ x ∈ L, P x → x ∈ acc) →
      L.foldl (fun a x => if P x then setAdd a x else a) acc = acc := by
  intro L
  induction L with
  | nil => intro acc _; rfl
  | cons x L ih =>
    intro acc hall
    rw [List.foldl_cons]
    by_cases hx : P x
    · rw [if_pos hx, setAdd_of_mem (hall x (List.mem_cons_self _ _) hx)]
      exact ih acc (fun y hy => hall y (List.mem_cons_of_mem _ hy))
    · rw [if_neg hx]
      exact ih acc (fun y hy => hall y (List.mem_cons_of_mem _ hy))

theorem foldl_setDel_absorb (P : Int → Prop) [DecidablePred P] :
    ∀ (L acc : List Int), (∀ x ∈ L, P x → x ∉ acc) →
      L.foldl (fun a x => if P x then setDel a x else a) acc = acc := by
  intro L
  induction L with
  | nil => intro acc _; rfl
  | cons x L ih =>
    intro acc hall
    rw [List.foldl_cons]
    by_cases hx : P x
    · rw [if_pos hx, setDel_of_not_mem (hall x (List.mem_cons_self _ _) hx)]
      exact ih acc (fun y hy => hall y (List.mem_cons_of_mem _ hy))
    · rw [if_neg hx]
      exact ih acc (fun y hy => hall y (List.mem_cons_of_mem _ hy))

/-- C8: `lockAllOfClass` adds to the locked set exactly every known fused
id whose decoded class matches the given class, `unlockAllOfClass` removes
exactly those ids, and both operations are idempotent. -/
theorem C8_lock_unlock_all_of_class :
    (∀ (m : GraphicMask) (cls : Int) (k : Int),
        k ∈ (lockAllOfClass m cls).lockedInstances ↔
          k ∈ m.lockedInstances ∨ (k ∈ m.fusedIds ∧ (unfuseId k).c = cls)) ∧
    (∀ (m : GraphicMask) (cls : Int) (k : Int),
        k ∈ (unlockAllOfClass m cls).lockedInstances ↔
          k ∈ m.lockedInstances ∧ ¬(k ∈ m.fusedIds ∧ (unfuseId k).c = cls)) ∧
    (∀ (m : GraphicMask) (cls : Int),
        lockAllOfClass (lockAllOfClass m cls) cls = lockAllOfClass m cls) ∧
    (∀ (m : GraphicMask) (cls : Int),
        unlockAllOfClass (unlockAllOfClass m cls) cls = unlockAllOfClass m cls) := by
  have hmemAdd : ∀ (m : GraphicMask) (cls : Int) (k : Int),
      k ∈ (lockAllOfClass m cls).lockedInstances ↔
        k ∈ m.lockedInstances ∨ (k ∈ m.fusedIds ∧ (unfuseId k).c = cls) := by
    intro m cls k
    exact mem_foldl_setAdd (fun f => (unfuseId f).c = cls) m.fusedIds m.lockedInstances k
  have hmemDel : ∀ (m : GraphicMask) (cls : Int) (k : Int),
      k ∈ (unlockAllOfClass m cls).lockedInstances ↔
        k ∈ m.lockedInstances ∧ ¬(k ∈ m.fusedIds ∧ (unfuseId k).c = cls) := by
    intro m cls k
    exact mem_foldl_setDel (fun f => (unfuseId f).c = cls) m.fusedIds m.lockedInstances k
  refine ⟨hmemAdd, hmemDel, ?_, ?_⟩
  · intro m cls
    have h : (lockAllOfClass m cls).fusedIds.foldl
        (fun acc f => if (unfuseId f).c = cls then setAdd acc f else acc)
        (lockAllOfClass m cls).lockedInstances
        = (lockAllOfClass m cls).lockedInstances := by
      refine foldl_setAdd_absorb (fun f => (unfuseId f).c = cls) _ _ ?_
      intro x hx hP
      exact (hmemAdd m cls x).mpr (Or.inr ⟨hx, hP⟩)
    show { lockAllOfClass m cls with
      lockedInstances := (lockAllOfClass m cls).fusedIds.foldl
        (fun acc f => if (unfuseId f).c = cls then setAdd acc f else acc)
        (lockAllOfClass m cls).lockedInstances } = lockAllOfClass m cls
    rw [h]
  · intro m cls
    have h : (unlockAllOfClass m cls).fusedIds.foldl
        (fun acc f => if (unfuseId f).c = cls then setDel acc f else acc)
        (unlockAllOfClass m cls).lockedInstances
        = (unlockAllOfClass m cls).lockedInstances := by
      refine foldl_setDel_absorb (fun f => (unfuseId f).c = cls) _ _ ?_
      intro x hx hP
      rw [hmemDel]
      rintro ⟨_, hnot⟩
      exact hnot ⟨hx, hP⟩
    show { unlockAllOfClass m cls with
      lockedInstances := (unlockAllOfClass m cls).fusedIds.foldl
        (fun acc f => if (unfuseId f).c = cls then setDel acc f else acc)
        (unlockAllOfClass m cls).lockedInstances } = unlockAllOfClass m cls
    rw [h]

end PixanoMask
